import Mathlib

/-!
Verification of the deploy-checklist reconciliation pipeline and the IOU
utility functions of this repository.

Strings of the JavaScript source are modelled as lists of characters
(`JStr`), so that splitting on the CRLF separator and joining lines are
plain recursive functions amenable to proof.

The checklist Body Parser, Reconciler and Serializer are not present under
`src/` (only their test suite is), so they are modelled from the spec:
- data model of §3 (ChangeEntry/BlockerEntry/ChecklistDocument),
- parser of §4.1, merge policy of §4.2, serializer of §4.3,
- canonical text format of §6 (CRLF line terminators, checkbox markers),
with the exact header and checkbox constants taken from the test file in
`src/unnamed/part_000`.

`calculateAmount` and `updateIOUOwnerAndTotal` are translated directly from
`src/src/libs/IOUUtils.js`; JavaScript numbers are modelled as rationals and
`Math.round` as `⌊x + 1/2⌋` (round half toward positive infinity).
-/

/-- JavaScript strings, modelled as lists of characters. -/
abbrev JStr := List Char

/-- One merged pull request or tracked item referenced in the checklist
(§3 ChangeEntry / BlockerEntry: reference plus two checkbox booleans). -/
structure Entry where
  reference : JStr
  qaChecked : Bool
  accessibilityChecked : Bool
deriving DecidableEq, Repr

/-- The full reconciled state of one checklist issue (§3 ChecklistDocument).
`issueNumber` is held by the publisher, not by the body, and is omitted. -/
structure ChecklistDocument where
  releaseTag : JStr
  changeEntries : List Entry
  blockerEntries : List Entry
deriving DecidableEq, Repr

/-- The document used when no previous checklist body exists. -/
def emptyDocument : ChecklistDocument := ⟨[], [], []⟩

/-- Modelled from the spec: merge policy of §4.2 for one entry list
(the Reconciler itself is not under `src/`).  Rules 1/3/4: previous entries
whose reference is in the new set are kept, in order, with their checkbox
states; stale entries are dropped.  Rule 2: references of the new set not
previously present are appended, in the order of the new set, with both
checkboxes open. -/
def reconcileEntries (prev : List Entry) (newRefs : List JStr) : List Entry :=
  prev.filter (fun e => decide (e.reference ∈ newRefs))
    ++ (newRefs.filter
          (fun r => decide (∀ e ∈ prev, e.reference ≠ r))).map
        (fun r => ⟨r, false, false⟩)

/-- Modelled from the spec: the Reconciler of §4.2 (not under `src/`).
Merges the freshly observed change and blocker reference sets into the
previous document; the release tag is the requested one, or the previous
document's tag when no tag is supplied. -/
def reconcile (prevDoc : ChecklistDocument) (newChangeRefs : List JStr)
    (newBlockerRefs : List JStr) (releaseTag : Option JStr) : ChecklistDocument :=
  { releaseTag := releaseTag.getD prevDoc.releaseTag
    changeEntries := reconcileEntries prevDoc.changeEntries newChangeRefs
    blockerEntries := reconcileEntries prevDoc.blockerEntries newBlockerRefs }


/-! ### The canonical text format (§6), CRLF line handling -/

/-- Join a list of lines with the CRLF line terminator of the canonical
format (§6). -/
def joinLines : List JStr → JStr
  | [] => []
  | l :: ls => l ++ (if ls.isEmpty then [] else '\r' :: '\n' :: joinLines ls)

/-- Split a character list at every CRLF pair (accumulator holds the current
line reversed).  The fuel argument makes the recursion structural; it is
initialized to the length of the input, which the recursion never exceeds. -/
def splitLinesAux : Nat → JStr → JStr → List JStr
  | _, [], acc => [acc.reverse]
  | 0, s, acc => [acc.reverse ++ s]
  | fuel + 1, c :: rest, acc =>
    if c = '\r' ∧ rest.head? = some '\n' then
      acc.reverse :: splitLinesAux fuel rest.tail []
    else splitLinesAux fuel rest (c :: acc)

/-- Split a body into its CRLF-delimited lines. -/
def splitLines (s : JStr) : List JStr := splitLinesAux s.length s []


/-- Header text constants of the canonical format, as they appear verbatim
in the test suite (`src/unnamed/part_000`). -/
def versionPrefix : JStr := "**Release Version:** `".toList

/-- The compare-changes line of the canonical format. -/
def compareLine : JStr :=
  "**Compare Changes:** https://github.com/Expensify/App/compare/production...staging".toList

/-- The header line introducing the change-entry section. -/
def changesHeader : JStr :=
  "**This release contains changes from the following pull requests:**".toList

/-- The header line introducing the optional deploy-blockers section. -/
def blockersHeader : JStr := "**Deploy Blockers:**".toList

/-- The trailing reviewer-team mention line. -/
def ccLine : JStr := "cc @Expensify/applauseleads".toList

/-- A checkbox line: two-space indent, `- [x]` when checked, `- [ ]` when
open, followed by the given label (` QA` or ` Accessibility`). -/
def checkboxLine (checked : Bool) (label : JStr) : JStr :=
  ' ' :: ' ' :: '-' :: ' ' :: '[' :: (if checked then 'x' else ' ') :: ']' :: label

/-- The four lines of one entry block: a blank separator line, the bullet
carrying the reference, then the QA and Accessibility checkbox lines. -/
def entryLines (e : Entry) : List JStr :=
  [[], '-' :: ' ' :: e.reference,
   checkboxLine e.qaChecked " QA".toList,
   checkboxLine e.accessibilityChecked " Accessibility".toList]

/-- Modelled from the spec: the Serializer of §4.3 (not under `src/`),
rendering a ChecklistDocument to the lines of the canonical format of §6.
An empty blocker list omits the blockers section and its header entirely. -/
def serializeLines (d : ChecklistDocument) : List JStr :=
  [versionPrefix ++ d.releaseTag ++ ['`'], compareLine, [], changesHeader]
    ++ (d.changeEntries.map entryLines).flatten
    ++ (if d.blockerEntries.isEmpty then []
        else [[], [], blockersHeader] ++ (d.blockerEntries.map entryLines).flatten)
    ++ [[], ccLine, []]

/-- Modelled from the spec: the Serializer of §4.3 (not under `src/`),
producing the checklist body text with CRLF line terminators. -/
def serialize (d : ChecklistDocument) : JStr := joinLines (serializeLines d)

/-! ### The Body Parser (§4.1) -/

/-- A bullet line of an entry: starts with `- ` at column zero. -/
def isBullet (l : JStr) : Bool := decide (l.take 2 = ['-', ' '])

/-- A checkbox line: starts with the two-space indented `- [` marker. -/
def isCheckboxLine (l : JStr) : Bool := decide (l.take 5 = "  - [".toList)

/-- A checkbox line is closed exactly when it uses the closed marker
`- [x]`; any other checkbox line is open. -/
def isClosedBox (l : JStr) : Bool := decide (l.take 7 = "  - [x]".toList)

/-- State of the first checkbox line following a bullet (open when it is
missing). -/
def boxFst : List JStr → Bool
  | b :: _ => isClosedBox b
  | [] => false

/-- State of the second checkbox line following a bullet (open when it is
missing). -/
def boxSnd : List JStr → Bool
  | _ :: b :: _ => isClosedBox b
  | _ => false

/-- Modelled from the spec: entry extraction of the Body Parser (§4.1, not
under `src/`): one entry per bullet line, reading the at most two checkbox
lines that follow it; missing checkbox lines default to open; every other
line is skipped.  The fuel argument makes the recursion structural; it is
initialized to the number of lines, which the recursion never exceeds. -/
def parseEntriesAux : Nat → List JStr → List Entry
  | _, [] => []
  | 0, _ => []
  | fuel + 1, l :: rest =>
    if isBullet l then
      let boxes := (rest.takeWhile isCheckboxLine).take 2
      ⟨l.drop 2, boxFst boxes, boxSnd boxes⟩ :: parseEntriesAux fuel (rest.drop boxes.length)
    else parseEntriesAux fuel rest

/-- Entry extraction of the Body Parser over a list of lines. -/
def parseEntries (lines : List JStr) : List Entry := parseEntriesAux lines.length lines

/-- Modelled from the spec: release-tag recovery of the Body Parser (§4.1,
not under `src/`): the tag is the backtick-quoted text of the
`**Release Version:**` line; a malformed line yields the empty tag. -/
def parseTag (line : JStr) : JStr :=
  if versionPrefix.isPrefixOf line then
    let rest := line.drop versionPrefix.length
    if rest.getLast? = some '`' then rest.dropLast else []
  else []

/-- Modelled from the spec: the Body Parser of §4.1 (not under `src/`).
Splits the body into CRLF lines, recovers the release tag from the first
line, splits the lines at the fixed blockers header into the changes
section and the optional blockers section, and extracts the entries of
each.  A missing body yields the empty document; no input is an error. -/
def parse (body : Option JStr) : ChecklistDocument :=
  match body with
  | none => emptyDocument
  | some s =>
    let lines := splitLines s
    { releaseTag := parseTag (lines.headD [])
      changeEntries := parseEntries (lines.takeWhile (fun l => l ≠ blockersHeader))
      blockerEntries :=
        parseEntries ((lines.dropWhile (fun l => l ≠ blockersHeader)).drop 1) }

/-- Documents the Serializer can actually produce: the release tag and the
entry references contain no carriage return, so every serialized line is
CR-free and the CRLF line structure of the body is unambiguous. -/
def wellFormed (d : ChecklistDocument) : Prop :=
  '\r' ∉ d.releaseTag ∧ (∀ e ∈ d.changeEntries, '\r' ∉ e.reference) ∧
    ∀ e ∈ d.blockerEntries, '\r' ∉ e.reference

instance wellFormed.decidable : DecidablePred wellFormed := fun d => by
  unfold wellFormed; infer_instance

/-- The first line of a tail of the body, if any, is not a checkbox line. -/
def headNotCheckbox : List JStr → Prop
  | [] => True
  | l :: _ => isCheckboxLine l = false

/-! ### IOU utilities, translated from `src/src/libs/IOUUtils.js` -/

/-- JavaScript `Math.round`: round half toward positive infinity. -/
def jsRound (x : ℚ) : ℤ := ⌊x + 1 / 2⌋

/-- `getCurrencyDecimals`: digits after the decimal separator of a currency,
looked up in the currency-list snapshot, defaulting to 2 and floored to 2.
The ambient Onyx `currencyList` is passed explicitly as a read-only
snapshot parameter (spec §9). -/
def getCurrencyDecimals (currencyList : JStr → Option Nat) (currency : JStr) : Nat :=
  match currencyList currency with
  | none => 2
  | some d => min d 2

/-- `getCurrencyUnit`: the currency's minor-unit quantity, e.g. cent in
USD. -/
def getCurrencyUnit (currencyList : JStr → Option Nat) (currency : JStr) : ℚ :=
  10 ^ getCurrencyDecimals currencyList currency

/-- `calculateAmount`: the amount per user when `total` is split among the
participants plus the current user; the current (default) user absorbs the
rounding difference. -/
def calculateAmount (currencyList : JStr → Option Nat) (participants : List JStr)
    (total : ℚ) (currency : JStr) (isDefaultUser : Bool) : ℚ :=
  let currencyUnit := getCurrencyUnit currencyList currency
  let iouAmount : ℤ := jsRound (total * currencyUnit)
  let totalParticipants : ℤ := participants.length + 1
  let amountPerPerson : ℤ := jsRound ((iouAmount : ℚ) / (totalParticipants : ℚ))
  let finalAmount : ℤ :=
    if isDefaultUser then
      let sumAmount := amountPerPerson * totalParticipants
      if iouAmount ≠ sumAmount then amountPerPerson + (iouAmount - sumAmount)
      else amountPerPerson
    else amountPerPerson
  (finalAmount : ℚ) * 100 / currencyUnit

/-- The IOU report-action types of `CONST.IOU.REPORT_ACTION_TYPE`. -/
inductive IOUActionType
  | create
  | decline
  | cancel
  | pay
  | split
deriving DecidableEq

/-- An IOU report as consumed by `updateIOUOwnerAndTotal`: the owner is owed
money, the manager owes it, and the total is kept positive. -/
structure IOUReport where
  ownerEmail : JStr
  managerEmail : JStr
  total : ℤ
  currency : JStr
  hasOutstandingIOU : Bool
deriving DecidableEq

/-- The signed amount that `updateIOUOwnerAndTotal` adds to the report total
(its two nested conditionals on the actor and the action type). -/
def iouDelta (iouReport : IOUReport) (actorEmail : JStr) (amount : ℤ)
    (type : IOUActionType) : ℤ :=
  if actorEmail = iouReport.ownerEmail then
    if type = IOUActionType.cancel then -amount else amount
  else
    if type = IOUActionType.cancel then amount else -amount

/-- `updateIOUOwnerAndTotal`: a currency mismatch returns the report
unchanged; otherwise the amount is added with the appropriate sign, owner
and manager are swapped when the total would turn negative (negating the
total), and the outstanding-IOU flag records whether the final total is
non-zero. -/
def updateIOUOwnerAndTotal (iouReport : IOUReport) (actorEmail : JStr)
    (amount : ℤ) (currency : JStr) (type : IOUActionType) : IOUReport :=
  if currency ≠ iouReport.currency then iouReport
  else
    let total1 := iouReport.total + iouDelta iouReport actorEmail amount type
    { ownerEmail := if total1 < 0 then iouReport.managerEmail else iouReport.ownerEmail
      managerEmail := if total1 < 0 then iouReport.ownerEmail else iouReport.managerEmail
      total := if total1 < 0 then -total1 else total1
      currency := iouReport.currency
      hasOutstandingIOU := decide ((if total1 < 0 then -total1 else total1) ≠ 0) }

/-! ### Concrete references and documents from the test suite -/

/-- Pull request 6 of `basePRList` in the test suite. -/
def pr6 : JStr := "https://github.com/Expensify/App/pull/6".toList

/-- Pull request 7 of `basePRList` in the test suite. -/
def pr7 : JStr := "https://github.com/Expensify/App/pull/7".toList

/-- Pull request 8 of `basePRList` in the test suite. -/
def pr8 : JStr := "https://github.com/Expensify/App/pull/8".toList

/-- Pull request 9 of `basePRList` in the test suite. -/
def pr9 : JStr := "https://github.com/Expensify/App/pull/9".toList

/-- Pull request 10 of `basePRList` in the test suite. -/
def pr10 : JStr := "https://github.com/Expensify/App/pull/10".toList

/-- Pull request 11 of `basePRList` in the test suite. -/
def pr11 : JStr := "https://github.com/Expensify/App/pull/11".toList

/-- Pull request 12 of `basePRList` in the test suite. -/
def pr12 : JStr := "https://github.com/Expensify/App/pull/12".toList

/-- Scenario A of spec §8: reconciliation from a missing previous body with
new change references pr6, pr7, pr8 and release tag `1.0.2-1`. -/
def scenarioADocument : ChecklistDocument :=
  reconcile (parse none) [pr6, pr7, pr8] [] (some "1.0.2-1".toList)

/-- A document shaped like the updated checklist of spec §8 Scenario B, with
both change entries and blocker entries, used to exercise the round trip. -/
def scenarioBDocument : ChecklistDocument :=
  ⟨"1.0.2-2".toList,
   [⟨pr6, false, false⟩, ⟨pr7, true, false⟩, ⟨pr8, false, false⟩],
   [⟨pr9, false, false⟩, ⟨pr10, true, true⟩]⟩

/-- A document with change entries and no blocker entries, used to exercise
the omission of the blockers section. -/
def noBlockersDocument : ChecklistDocument :=
  ⟨"1.0.2-1".toList, [⟨pr6, true, false⟩, ⟨pr7, false, false⟩], []⟩

/-- A sample IOU report, used to exercise the report-update invariant. -/
def sampleIOUReport : IOUReport :=
  ⟨"owner@example.com".toList, "manager@example.com".toList, 500, "USD".toList, true⟩

/-! ### Helper lemmas -/

/-- A previous entry whose reference is in the new set survives the merge
with its checkbox states intact. -/
theorem reconcileEntries_mem_of_mem (prev : List Entry) (newRefs : List JStr)
    (e : Entry) (he : e ∈ prev) (hr : e.reference ∈ newRefs) :
    e ∈ reconcileEntries prev newRefs := by
  unfold reconcileEntries
  exact List.mem_append_left _ (List.mem_filter.mpr ⟨he, by simpa using hr⟩)

/-- A new reference not previously present yields a fresh open entry. -/
theorem reconcileEntries_mem_new (prev : List Entry) (newRefs : List JStr)
    (r : JStr) (hr : r ∈ newRefs) (hnot : ∀ e ∈ prev, e.reference ≠ r) :
    (⟨r, false, false⟩ : Entry) ∈ reconcileEntries prev newRefs := by
  unfold reconcileEntries
  refine List.mem_append_right _ (List.mem_map.mpr ⟨r, ?_, rfl⟩)
  exact List.mem_filter.mpr ⟨hr, by simpa using hnot⟩

/-- When the new reference set covers every previous reference, the merge
keeps the whole previous list, in order, and appends the genuinely new
references as open entries. -/
theorem reconcileEntries_superset (prev : List Entry) (newRefs : List JStr)
    (hsup : ∀ e ∈ prev, e.reference ∈ newRefs) :
    reconcileEntries prev newRefs =
      prev ++ (newRefs.filter
          (fun r => decide (∀ e ∈ prev, e.reference ≠ r))).map
        (fun r => ⟨r, false, false⟩) := by
  unfold reconcileEntries
  congr 1
  exact List.filter_eq_self.mpr fun e he => by simpa using hsup e he

/-- Unfolding of `splitLinesAux` at a CRLF pair. -/
theorem splitLinesAux_crlf (f : Nat) (rest : JStr) (acc : JStr) :
    splitLinesAux (f + 1) ('\r' :: '\n' :: rest) acc =
      acc.reverse :: splitLinesAux f rest [] := by
  simp [splitLinesAux]

/-- Unfolding of `splitLinesAux` at an ordinary character. -/
theorem splitLinesAux_step (f : Nat) (c : Char) (rest : JStr) (acc : JStr)
    (hc : ¬(c = '\r' ∧ rest.head? = some '\n')) :
    splitLinesAux (f + 1) (c :: rest) acc = splitLinesAux f rest (c :: acc) := by
  simp [splitLinesAux, hc]

/-- The result of `splitLinesAux` does not depend on the fuel, as long as
the fuel is at least the length of the input. -/
theorem splitLinesAux_fuel_irrel (fuel : Nat) :
    ∀ (fuel' : Nat) (s acc : JStr), s.length ≤ fuel → s.length ≤ fuel' →
      splitLinesAux fuel s acc = splitLinesAux fuel' s acc := by
  induction fuel with
  | zero =>
    intro fuel' s acc h _
    obtain rfl : s = [] := List.length_eq_zero.mp (Nat.le_zero.mp h)
    simp [splitLinesAux]
  | succ f ih =>
    intro fuel' s acc h h'
    cases s with
    | nil => simp [splitLinesAux]
    | cons c rest =>
      cases fuel' with
      | zero => simp at h'
      | succ f' =>
        simp only [List.length_cons] at h h'
        by_cases hc : c = '\r' ∧ rest.head? = some '\n'
        · obtain ⟨rfl, hh⟩ := hc
          cases rest with
          | nil => simp at hh
          | cons c2 rest' =>
            obtain rfl : c2 = '\n' := by simpa using hh
            rw [splitLinesAux_crlf, splitLinesAux_crlf]
            simp only [List.length_cons] at h h'
            rw [ih f' rest' [] (by omega) (by omega)]
        · rw [splitLinesAux_step f c rest acc hc, splitLinesAux_step f' c rest acc hc]
          exact ih f' rest (c :: acc) (by omega) (by omega)

/-- Splitting a CR-free character list yields a single line. -/
theorem splitLinesAux_no_cr :
    ∀ (l acc : JStr) (fuel : Nat), '\r' ∉ l → l.length ≤ fuel →
      splitLinesAux fuel l acc = [acc.reverse ++ l] := by
  intro l
  induction l with
  | nil => intro acc fuel _ _; cases fuel <;> simp [splitLinesAux]
  | cons c rest ih =>
    intro acc fuel hcr hf
    cases fuel with
    | zero => simp at hf
    | succ f =>
      have hc : c ≠ '\r' := fun h => hcr (h ▸ List.mem_cons_self c rest)
      rw [splitLinesAux_step f c rest acc (fun h => hc h.1)]
      rw [ih (c :: acc) f (fun h => hcr (List.mem_cons_of_mem c h))
        (by simp only [List.length_cons] at hf; omega)]
      simp

/-- Splitting a list that starts with a CR-free line followed by CRLF peels
off exactly that line. -/
theorem splitLinesAux_cr_break :
    ∀ (l : JStr) (rest : JStr) (acc : JStr) (fuel : Nat), '\r' ∉ l →
      (l ++ '\r' :: '\n' :: rest).length ≤ fuel →
      splitLinesAux fuel (l ++ '\r' :: '\n' :: rest) acc =
        (acc.reverse ++ l) :: splitLines rest := by
  intro l
  induction l with
  | nil =>
    intro rest acc fuel _ hf
    cases fuel with
    | zero => simp at hf
    | succ f =>
      simp only [List.nil_append] at hf ⊢
      rw [splitLinesAux_crlf]
      simp only [List.length_cons] at hf
      rw [splitLines, splitLinesAux_fuel_irrel f rest.length rest [] (by omega) le_rfl]
      simp
  | cons c l' ih =>
    intro rest acc fuel hcr hf
    cases fuel with
    | zero => simp at hf
    | succ f =>
      have hc : c ≠ '\r' := fun h => hcr (h ▸ List.mem_cons_self c l')
      simp only [List.cons_append] at hf ⊢
      rw [splitLinesAux_step f c (l' ++ '\r' :: '\n' :: rest) acc (fun h => hc h.1)]
      rw [ih rest (c :: acc) f (fun h => hcr (List.mem_cons_of_mem c h))
        (by simp only [List.length_cons] at hf; omega)]
      simp

/-- Splitting the CRLF join of a nonempty list of CR-free lines recovers
exactly those lines. -/
theorem splitLines_joinLines :
    ∀ (L : List JStr), L ≠ [] → (∀ l ∈ L, '\r' ∉ l) →
      splitLines (joinLines L) = L := by
  intro L
  induction L with
  | nil => intro h _; exact absurd rfl h
  | cons l L' ih =>
    intro _ hcr
    cases L' with
    | nil =>
      rw [show joinLines [l] = l by simp [joinLines]]
      rw [splitLines, splitLinesAux_no_cr l [] l.length (hcr l (List.mem_cons_self l [])) le_rfl]
      simp
    | cons l2 L'' =>
      rw [show joinLines (l :: l2 :: L'') = l ++ '\r' :: '\n' :: joinLines (l2 :: L'') from rfl]
      rw [splitLines,
        splitLinesAux_cr_break l (joinLines (l2 :: L'')) [] _
          (hcr l (List.mem_cons_self l _)) le_rfl]
      rw [ih (by simp) (fun x hx => hcr x (List.mem_cons_of_mem l hx))]
      simp

/-- The result of `parseEntriesAux` does not depend on the fuel, as long as
the fuel is at least the number of lines. -/
theorem parseEntriesAux_fuel_irrel (fuel : Nat) :
    ∀ (fuel' : Nat) (ls : List JStr), ls.length ≤ fuel → ls.length ≤ fuel' →
      parseEntriesAux fuel ls = parseEntriesAux fuel' ls := by
  induction fuel with
  | zero =>
    intro fuel' ls h _
    obtain rfl : ls = [] := List.length_eq_zero.mp (Nat.le_zero.mp h)
    simp [parseEntriesAux]
  | succ f ih =>
    intro fuel' ls h h'
    cases ls with
    | nil => simp [parseEntriesAux]
    | cons l rest =>
      cases fuel' with
      | zero => simp at h'
      | succ f' =>
        simp only [List.length_cons] at h h'
        simp only [parseEntriesAux]
        by_cases hb : isBullet l
        · simp only [if_pos hb]
          have hd : (rest.drop ((rest.takeWhile isCheckboxLine).take 2).length).length
              ≤ rest.length := by
            simp [List.length_drop]
          rw [ih f' _ (by omega) (by omega)]
        · simp only [if_neg hb]
          exact ih f' rest (by omega) (by omega)

/-- A non-bullet line is skipped by the entry extraction. -/
theorem parseEntriesAux_skip (l : JStr) (rest : List JStr) (fuel : Nat)
    (hl : isBullet l = false) (h : rest.length < fuel) :
    parseEntriesAux fuel (l :: rest) = parseEntriesAux rest.length rest := by
  cases fuel with
  | zero => omega
  | succ f =>
    simp only [parseEntriesAux, hl, Bool.false_eq_true, if_false]
    exact parseEntriesAux_fuel_irrel f rest.length rest (by omega) le_rfl

/-- The empty line is not a bullet. -/
theorem isBullet_nil : isBullet [] = false := rfl

/-- A serialized bullet line is recognized as a bullet. -/
theorem isBullet_bullet (r : JStr) : isBullet ('-' :: ' ' :: r) = true := rfl

/-- A serialized checkbox line is recognized as a checkbox line. -/
theorem isCheckboxLine_checkboxLine (b : Bool) (label : JStr) :
    isCheckboxLine (checkboxLine b label) = true := rfl

/-- A serialized checkbox line is closed exactly when its state is
checked. -/
theorem isClosedBox_checkboxLine (b : Bool) (label : JStr) :
    isClosedBox (checkboxLine b label) = b := by
  cases b <;> rfl

/-- The empty line is not a checkbox line. -/
theorem isCheckboxLine_nil : isCheckboxLine [] = false := rfl

/-- No checkbox line is taken from a tail whose head is not a checkbox
line. -/
theorem takeWhile_checkbox_nil :
    ∀ (T : List JStr), headNotCheckbox T → T.takeWhile isCheckboxLine = [] := by
  intro T h
  cases T with
  | nil => rfl
  | cons l rest =>
    have h' : isCheckboxLine l = false := h
    simp [List.takeWhile_cons, h']

/-- The lines of a list of entry blocks followed by a safe tail start with
a non-checkbox line. -/
theorem headNotCheckbox_blocks (es : List Entry) (rest : List JStr)
    (h : headNotCheckbox rest) :
    headNotCheckbox ((es.map entryLines).flatten ++ rest) := by
  cases es with
  | nil => simpa using h
  | cons e es' => exact isCheckboxLine_nil

/-- Entry extraction recovers exactly the entries of a list of serialized
entry blocks, and goes on to process the remaining lines. -/
theorem parseEntriesAux_blocks :
    ∀ (es : List Entry) (rest : List JStr) (fuel : Nat),
      ((es.map entryLines).flatten ++ rest).length ≤ fuel → headNotCheckbox rest →
      parseEntriesAux fuel ((es.map entryLines).flatten ++ rest) =
        es ++ parseEntriesAux rest.length rest := by
  intro es
  induction es with
  | nil =>
    intro rest fuel hf _
    simpa using parseEntriesAux_fuel_irrel fuel rest.length rest (by simpa using hf) le_rfl
  | cons e es' ih =>
    intro rest fuel hf hr
    have hshape : ((e :: es').map entryLines).flatten ++ rest =
        [] :: ('-' :: ' ' :: e.reference) :: checkboxLine e.qaChecked " QA".toList ::
          checkboxLine e.accessibilityChecked " Accessibility".toList ::
          ((es'.map entryLines).flatten ++ rest) := by
      simp [entryLines]
    rw [hshape] at hf ⊢
    simp only [List.length_cons] at hf
    cases fuel with
    | zero => omega
    | succ f =>
      cases f with
      | zero => omega
      | succ f2 =>
        simp only [parseEntriesAux, isBullet_nil, Bool.false_eq_true, if_false,
          isBullet_bullet, if_true, List.takeWhile_cons, isCheckboxLine_checkboxLine,
          takeWhile_checkbox_nil _ (headNotCheckbox_blocks es' rest hr)]
        simp only [List.take, List.length_cons, List.length_nil, List.drop,
          boxFst, boxSnd, isClosedBox_checkboxLine, List.drop_zero]
        rw [ih rest f2 (by omega) hr]
        rfl

/-- Taking while a predicate holds walks through a block where it always
holds. -/
theorem takeWhile_append_all {α : Type} {p : α → Bool} :
    ∀ (xs ys : List α), (∀ x ∈ xs, p x = true) →
      (xs ++ ys).takeWhile p = xs ++ ys.takeWhile p := by
  intro xs ys h
  induction xs with
  | nil => simp
  | cons x xs' ih =>
    simp only [List.cons_append, List.takeWhile_cons, h x (List.mem_cons_self x xs'),
      if_true]
    rw [ih (fun a ha => h a (List.mem_cons_of_mem x ha))]

/-- Dropping while a predicate holds consumes a block where it always
holds. -/
theorem dropWhile_append_all {α : Type} {p : α → Bool} :
    ∀ (xs ys : List α), (∀ x ∈ xs, p x = true) →
      (xs ++ ys).dropWhile p = ys.dropWhile p := by
  intro xs ys h
  induction xs with
  | nil => simp
  | cons x xs' ih =>
    simp only [List.cons_append, List.dropWhile_cons, h x (List.mem_cons_self x xs'),
      if_true]
    exact ih (fun a ha => h a (List.mem_cons_of_mem x ha))

/-- Two lists differing at some position are different. -/
theorem ne_of_getElem? {α : Type} (l m : List α) (i : Nat) (h : l[i]? ≠ m[i]?) :
    l ≠ m :=
  fun he => h (he ▸ rfl)

/-- The serialized version line is never the blockers header (they differ at
the third character). -/
theorem versionLine_ne_header (tag : JStr) :
    versionPrefix ++ tag ++ ['`'] ≠ blockersHeader := by
  apply ne_of_getElem? _ _ 2
  rw [List.append_assoc, List.getElem?_append]
  norm_num [versionPrefix, blockersHeader]
  decide

/-- A serialized bullet line is never the blockers header. -/
theorem bullet_ne_header (r : JStr) : '-' :: ' ' :: r ≠ blockersHeader := by
  apply ne_of_getElem? _ _ 0
  simp [blockersHeader]

/-- A serialized checkbox line is never the blockers header. -/
theorem checkboxLine_ne_header (b : Bool) (label : JStr) :
    checkboxLine b label ≠ blockersHeader := by
  apply ne_of_getElem? _ _ 0
  simp [checkboxLine, blockersHeader]

/-- No line of a serialized entry block is the blockers header. -/
theorem entryLines_ne_header (e : Entry) :
    ∀ l ∈ entryLines e, l ≠ blockersHeader := by
  intro l hl
  simp only [entryLines, List.mem_cons, List.not_mem_nil, or_false] at hl
  rcases hl with rfl | rfl | rfl | rfl
  · decide
  · exact bullet_ne_header _
  · exact checkboxLine_ne_header _ _
  · exact checkboxLine_ne_header _ _

/-- A serialized bullet line is not the version line and not a header: it is
not recognized as a bullet only if it starts with `- `.  The version line
starts with `**`, so it is not a bullet. -/
theorem isBullet_versionLine (tag : JStr) :
    isBullet (versionPrefix ++ tag ++ ['`']) = false := by
  unfold isBullet
  rw [List.append_assoc,
    List.take_append_of_le_length (by norm_num [versionPrefix])]
  decide

/-- `parseTag` recovers the tag from the serialized version line. -/
theorem parseTag_versionLine (tag : JStr) :
    parseTag (versionPrefix ++ tag ++ ['`']) = tag := by
  unfold parseTag
  rw [List.append_assoc,
    if_pos (List.isPrefixOf_iff_prefix.mpr (List.prefix_append _ _))]
  simp [List.drop_left, List.getLast?_concat, List.dropLast_concat]

/-- No character of a serialized checkbox line is a carriage return, as long
as its label is CR-free. -/
theorem no_cr_checkboxLine (b : Bool) (label : JStr) (hl : '\r' ∉ label) :
    '\r' ∉ checkboxLine b label := by
  intro hmem
  simp only [checkboxLine, List.mem_cons] at hmem
  rcases hmem with h | h | h | h | h | h | h | h
  all_goals first
    | exact hl h
    | simp at h
    | (cases b <;> simp_all)

/-- Every line the Serializer produces for a well-formed document is
CR-free. -/
theorem serializeLines_no_cr (d : ChecklistDocument) (h : wellFormed d) :
    ∀ l ∈ serializeLines d, '\r' ∉ l := by
  obtain ⟨htag, hces, hbes⟩ := h
  intro l hl
  have hblock : ∀ (es : List Entry), (∀ e ∈ es, '\r' ∉ e.reference) →
      l ∈ (es.map entryLines).flatten → '\r' ∉ l := by
    intro es hes hmem
    rw [List.mem_flatten] at hmem
    obtain ⟨b, hb, hlb⟩ := hmem
    rw [List.mem_map] at hb
    obtain ⟨e, he, rfl⟩ := hb
    simp only [entryLines, List.mem_cons, List.not_mem_nil, or_false] at hlb
    rcases hlb with rfl | rfl | rfl | rfl
    · simp
    · intro hmem
      simp only [List.mem_cons] at hmem
      rcases hmem with h | h | h
      · simp at h
      · simp at h
      · exact hes e he h
    · exact no_cr_checkboxLine _ _ (by decide)
    · exact no_cr_checkboxLine _ _ (by decide)
  unfold serializeLines at hl
  rcases List.mem_append.mp hl with hl1 | hltrailer
  · rcases List.mem_append.mp hl1 with hl2 | hlblockers
    · rcases List.mem_append.mp hl2 with hlpre | hlchange
      · simp only [List.mem_cons, List.not_mem_nil, or_false] at hlpre
        rcases hlpre with rfl | rfl | rfl | rfl
        · intro hmem
          rcases List.mem_append.mp hmem with hm | hm
          · rcases List.mem_append.mp hm with hm' | hm'
            · revert hm'; decide
            · exact htag hm'
          · revert hm; decide
        · decide
        · decide
        · decide
      · exact hblock _ hces hlchange
    · by_cases hempty : d.blockerEntries.isEmpty
      · rw [if_pos hempty] at hlblockers
        simp at hlblockers
      · rw [if_neg hempty] at hlblockers
        rcases List.mem_append.mp hlblockers with hl3 | hl4
        · simp only [List.mem_cons, List.not_mem_nil, or_false] at hl3
          rcases hl3 with rfl | rfl | rfl
          · simp
          · simp
          · decide
        · exact hblock _ hbes hl4
  · simp only [List.mem_cons, List.not_mem_nil, or_false] at hltrailer
    rcases hltrailer with rfl | rfl | rfl
    · simp
    · decide
    · simp

/-- Taking while a predicate holds keeps a list where it always holds. -/
theorem takeWhile_all {α : Type} {p : α → Bool} :
    ∀ (xs : List α), (∀ x ∈ xs, p x = true) → xs.takeWhile p = xs := by
  intro xs h
  induction xs with
  | nil => rfl
  | cons x xs' ih =>
    simp only [List.takeWhile_cons, h x (List.mem_cons_self x xs'), if_true]
    rw [ih (fun a ha => h a (List.mem_cons_of_mem x ha))]

/-- Dropping while a predicate holds empties a list where it always holds. -/
theorem dropWhile_all {α : Type} {p : α → Bool} :
    ∀ (xs : List α), (∀ x ∈ xs, p x = true) → xs.dropWhile p = [] := by
  intro xs h
  induction xs with
  | nil => rfl
  | cons x xs' ih =>
    simp only [List.dropWhile_cons, h x (List.mem_cons_self x xs'), if_true]
    exact ih (fun a ha => h a (List.mem_cons_of_mem x ha))

/-- Entry extraction of a serialized change section: the four header lines
are skipped, the entry blocks are recovered, and the remaining lines are
processed on their own. -/
theorem parseEntries_section (tag : JStr) (es : List Entry) (rest : List JStr)
    (hr : headNotCheckbox rest) :
    parseEntries ((versionPrefix ++ tag ++ ['`']) :: compareLine :: [] :: changesHeader ::
        ((es.map entryLines).flatten ++ rest)) =
      es ++ parseEntriesAux rest.length rest := by
  rw [parseEntries,
    parseEntriesAux_skip _ _ _ (isBullet_versionLine tag) (by simp),
    parseEntriesAux_skip _ _ _ (by decide) (by simp),
    parseEntriesAux_skip _ _ _ isBullet_nil (by simp),
    parseEntriesAux_skip _ _ _ (by decide) (by simp)]
  exact parseEntriesAux_blocks es rest _ le_rfl hr

/-- Parsing the serialization of a well-formed document recovers the
document (round trip of the Body Parser and the Serializer). -/
theorem parse_serialize (d : ChecklistDocument) (h : wellFormed d) :
    parse (some (serialize d)) = d := by
  obtain ⟨tag, ces, bes⟩ := d
  have hlines : splitLines (serialize ⟨tag, ces, bes⟩) = serializeLines ⟨tag, ces, bes⟩ :=
    splitLines_joinLines _ (by simp [serializeLines]) (serializeLines_no_cr _ h)
  simp only [parse, hlines]
  have hprefix_ne : ∀ l ∈ ((versionPrefix ++ tag ++ ['`']) :: compareLine :: [] ::
      changesHeader :: ((ces.map entryLines).flatten ++ [] :: [] :: [])),
      l ≠ blockersHeader := by
    intro l hl
    simp only [List.mem_cons, List.mem_append, List.not_mem_nil, or_false] at hl
    rcases hl with rfl | rfl | rfl | rfl | hl'
    · exact versionLine_ne_header tag
    · decide
    · decide
    · decide
    rcases hl' with hl'' | hl''
    · rw [List.mem_flatten] at hl''
      obtain ⟨blk, hblk, hlblk⟩ := hl''
      rw [List.mem_map] at hblk
      obtain ⟨e, _, rfl⟩ := hblk
      exact entryLines_ne_header e l hlblk
    · rcases hl'' with rfl | rfl <;> decide
  cases bes with
  | nil =>
    have hshape : serializeLines ⟨tag, ces, ([] : List Entry)⟩ =
        (versionPrefix ++ tag ++ ['`']) :: compareLine :: [] :: changesHeader ::
          ((ces.map entryLines).flatten ++ [[], ccLine, []]) := by
      simp [serializeLines]
    rw [hshape]
    have hne : ∀ l ∈ (versionPrefix ++ tag ++ ['`']) :: compareLine :: [] :: changesHeader ::
        ((ces.map entryLines).flatten ++ [[], ccLine, []]), l ≠ blockersHeader := by
      intro l hl
      simp only [List.mem_cons, List.mem_append, List.not_mem_nil, or_false] at hl
      rcases hl with rfl | rfl | rfl | rfl | hl'
      · exact versionLine_ne_header tag
      · decide
      · decide
      · decide
      rcases hl' with hl'' | hl''
      · rw [List.mem_flatten] at hl''
        obtain ⟨blk, hblk, hlblk⟩ := hl''
        rw [List.mem_map] at hblk
        obtain ⟨e, _, rfl⟩ := hblk
        exact entryLines_ne_header e l hlblk
      · rcases hl'' with rfl | rfl | rfl <;> decide
    rw [takeWhile_all _ (fun x hx => by simpa using hne x hx)]
    rw [dropWhile_all _ (fun x hx => by simpa using hne x hx)]
    simp only [ChecklistDocument.mk.injEq]
    refine ⟨parseTag_versionLine tag, ?_, ?_⟩
    · rw [parseEntries_section tag ces [[], ccLine, []] isCheckboxLine_nil]
      simp [show parseEntriesAux 3 [[], ccLine, []] = [] from rfl]
    · simp [parseEntries, parseEntriesAux]
  | cons b bs =>
    have hshape : serializeLines ⟨tag, ces, b :: bs⟩ =
        ((versionPrefix ++ tag ++ ['`']) :: compareLine :: [] :: changesHeader ::
          ((ces.map entryLines).flatten ++ [[], []])) ++
        (blockersHeader :: (((b :: bs).map entryLines).flatten ++ [[], ccLine, []])) := by
      simp [serializeLines]
    rw [hshape]
    have hfirst : ∀ l ∈ (versionPrefix ++ tag ++ ['`']) :: compareLine :: [] ::
        changesHeader :: ((ces.map entryLines).flatten ++ [[], []]),
        (fun l => decide (¬l = blockersHeader)) l = true := by
      intro l hl
      simp only [decide_eq_true_eq]
      exact hprefix_ne l (by simpa using hl)
    rw [takeWhile_append_all _ _ hfirst, dropWhile_append_all _ _ hfirst]
    rw [show (blockersHeader :: (((b :: bs).map entryLines).flatten ++
        [[], ccLine, []])).takeWhile (fun l => decide (¬l = blockersHeader)) = [] by
      simp [List.takeWhile_cons]]
    rw [show (blockersHeader :: (((b :: bs).map entryLines).flatten ++
        [[], ccLine, []])).dropWhile (fun l => decide (¬l = blockersHeader)) =
        blockersHeader :: (((b :: bs).map entryLines).flatten ++ [[], ccLine, []]) by
      simp [List.dropWhile_cons]]
    simp only [List.append_nil, List.drop_succ_cons, List.drop_zero]
    simp only [ChecklistDocument.mk.injEq]
    refine ⟨parseTag_versionLine tag, ?_, ?_⟩
    · rw [show ((ces.map entryLines).flatten ++ [[], []]) =
        ((ces.map entryLines).flatten ++ [[], []]) from rfl]
      rw [parseEntries_section tag ces [[], []] isCheckboxLine_nil]
      simp [show parseEntriesAux 2 [[], []] = [] from rfl]
    · rw [parseEntries, parseEntriesAux_blocks (b :: bs) [[], ccLine, []] _ le_rfl
        isCheckboxLine_nil]
      simp [show parseEntriesAux 3 [[], ccLine, []] = [] from rfl]

/-! ### The claims -/

/-- C1: progress preservation for change entries — for every previous
document `P` and new change-reference set `R`, every entry of `P` whose
reference also occurs in `R` appears in the reconciled document with
exactly the same QA and Accessibility checkbox states it had in `P`. -/
theorem claim_C1_progress_preservation
    (P : ChecklistDocument) (R newBlockerRefs : List JStr) (tag : Option JStr)
    (e : Entry) (he : e ∈ P.changeEntries) (hr : e.reference ∈ R) :
    e ∈ (reconcile P R newBlockerRefs tag).changeEntries :=
  reconcileEntries_mem_of_mem _ _ e he hr

/-- Witness for C1: a previous entry for pr6 with a closed QA checkbox, with
pr6 again in the new reference set, survives reconciliation unchanged. -/
theorem claim_C1_witness :
    (⟨pr6, true, false⟩ : Entry) ∈
      (⟨"1.0.2-1".toList, [⟨pr6, true, false⟩], []⟩ : ChecklistDocument).changeEntries ∧
    pr6 ∈ [pr6, pr7] ∧
    (⟨pr6, true, false⟩ : Entry) ∈
      (reconcile ⟨"1.0.2-1".toList, [⟨pr6, true, false⟩], []⟩
        [pr6, pr7] [] none).changeEntries :=
  ⟨by decide, by decide,
    claim_C1_progress_preservation ⟨"1.0.2-1".toList, [⟨pr6, true, false⟩], []⟩
      [pr6, pr7] [] none ⟨pr6, true, false⟩ (by decide) (by decide)⟩

/-- C2: new-entry default — every reference of the new change-reference set
that is absent from the previous document's change-entry list appears in the
reconciled document as an entry with both checkboxes open. -/
theorem claim_C2_new_entry_default
    (P : ChecklistDocument) (R newBlockerRefs : List JStr) (tag : Option JStr)
    (r : JStr) (hr : r ∈ R) (habsent : ∀ e ∈ P.changeEntries, e.reference ≠ r) :
    (⟨r, false, false⟩ : Entry) ∈ (reconcile P R newBlockerRefs tag).changeEntries :=
  reconcileEntries_mem_new _ _ r hr habsent

/-- Witness for C2: pr9 is new to the document and appears with both
checkboxes open. -/
theorem claim_C2_witness :
    pr9 ∈ [pr6, pr9] ∧
    (∀ e ∈ (⟨"1.0.2-1".toList, [⟨pr6, true, false⟩], []⟩ :
        ChecklistDocument).changeEntries, e.reference ≠ pr9) ∧
    (⟨pr9, false, false⟩ : Entry) ∈
      (reconcile ⟨"1.0.2-1".toList, [⟨pr6, true, false⟩], []⟩
        [pr6, pr9] [] none).changeEntries :=
  ⟨by decide, by decide,
    claim_C2_new_entry_default ⟨"1.0.2-1".toList, [⟨pr6, true, false⟩], []⟩
      [pr6, pr9] [] none pr9 (by decide) (by decide)⟩

/-- C3: blocker progress preservation — when the current open-blocker query
returns a superset of the previous document's blocker references, the
reconciled blocker list keeps the previous blockers, in order, with their
prior checkbox states, and appends each newly returned blocker with open
checkboxes, in query order. -/
theorem claim_C3_blocker_progress_preservation
    (P : ChecklistDocument) (newChangeRefs Q : List JStr) (tag : Option JStr)
    (hsup : ∀ e ∈ P.blockerEntries, e.reference ∈ Q) :
    (reconcile P newChangeRefs Q tag).blockerEntries =
      P.blockerEntries ++
        (Q.filter (fun r => decide (∀ e ∈ P.blockerEntries, e.reference ≠ r))).map
          (fun r => ⟨r, false, false⟩) :=
  reconcileEntries_superset _ _ hsup

/-- Witness for C3, spec §8 Scenario C: previous blockers pr6 (open), pr9
(open), pr10 (closed); the query returns pr6, pr9, pr10, pr11, pr12; the
previous three keep their states and pr11, pr12 are appended open. -/
theorem claim_C3_witness :
    (∀ e ∈ (⟨"1.0.2-2".toList, [],
        [⟨pr6, false, false⟩, ⟨pr9, false, false⟩, ⟨pr10, true, false⟩]⟩ :
        ChecklistDocument).blockerEntries, e.reference ∈ [pr6, pr9, pr10, pr11, pr12]) ∧
    (reconcile ⟨"1.0.2-2".toList, [],
        [⟨pr6, false, false⟩, ⟨pr9, false, false⟩, ⟨pr10, true, false⟩]⟩
      [] [pr6, pr9, pr10, pr11, pr12] none).blockerEntries =
      (⟨"1.0.2-2".toList, [],
        [⟨pr6, false, false⟩, ⟨pr9, false, false⟩, ⟨pr10, true, false⟩]⟩ :
        ChecklistDocument).blockerEntries ++
        ([pr6, pr9, pr10, pr11, pr12].filter
          (fun r => decide (∀ e ∈ (⟨"1.0.2-2".toList, [],
            [⟨pr6, false, false⟩, ⟨pr9, false, false⟩, ⟨pr10, true, false⟩]⟩ :
            ChecklistDocument).blockerEntries, e.reference ≠ r))).map
          (fun r => ⟨r, false, false⟩) :=
  ⟨by decide,
    claim_C3_blocker_progress_preservation
      ⟨"1.0.2-2".toList, [],
        [⟨pr6, false, false⟩, ⟨pr9, false, false⟩, ⟨pr10, true, false⟩]⟩
      [] [pr6, pr9, pr10, pr11, pr12] none (by decide)⟩

/-- C4: blocker section omission — a well-formed document whose blocker-entry
list is empty serializes to a body none of whose CRLF lines is the "Deploy
Blockers" header: the section and its header are absent, not rendered
empty. -/
theorem claim_C4_blocker_section_omission
    (D : ChecklistDocument) (h : wellFormed D) (hb : D.blockerEntries = []) :
    blockersHeader ∉ splitLines (serialize D) := by
  obtain ⟨tag, ces, bes⟩ := D
  obtain rfl : bes = [] := hb
  rw [serialize,
    splitLines_joinLines _ (by simp [serializeLines]) (serializeLines_no_cr _ h)]
  intro hmem
  have hshape : serializeLines ⟨tag, ces, ([] : List Entry)⟩ =
      (versionPrefix ++ tag ++ ['`']) :: compareLine :: [] :: changesHeader ::
        ((ces.map entryLines).flatten ++ [[], ccLine, []]) := by
    simp [serializeLines]
  rw [hshape] at hmem
  simp only [List.mem_cons, List.mem_append, List.not_mem_nil, or_false] at hmem
  rcases hmem with hm | hm | hm | hm | hm
  · exact versionLine_ne_header tag hm.symm
  · revert hm; decide
  · revert hm; decide
  · revert hm; decide
  rcases hm with hm' | hm'
  · rw [List.mem_flatten] at hm'
    obtain ⟨blk, hblk, hlblk⟩ := hm'
    rw [List.mem_map] at hblk
    obtain ⟨e, _, rfl⟩ := hblk
    exact entryLines_ne_header e _ hlblk rfl
  · revert hm'; decide

/-- Witness for C4: a concrete well-formed two-entry document without
blockers serializes to a body with no "Deploy Blockers" header line. -/
theorem claim_C4_witness :
    wellFormed noBlockersDocument ∧ noBlockersDocument.blockerEntries = [] ∧
      blockersHeader ∉ splitLines (serialize noBlockersDocument) :=
  ⟨by decide, rfl,
    claim_C4_blocker_section_omission noBlockersDocument (by decide) rfl⟩

/-- C5: release-tag retention — when no target release tag is supplied, the
reconciled document's release tag is the previous document's tag,
unchanged. -/
theorem claim_C5_release_tag_retention
    (P : ChecklistDocument) (newChangeRefs newBlockerRefs : List JStr) :
    (reconcile P newChangeRefs newBlockerRefs none).releaseTag = P.releaseTag :=
  rfl

set_option maxRecDepth 16000 in
/-- C6: create from empty — with an empty previous document, new change
references pr6, pr7, pr8 and tag `1.0.2-1`, the produced body starts with
the release-version line for `1.0.2-1`, the document holds exactly the three
change entries pr6, pr7, pr8 in that order with both checkboxes open, it has
no blocker entries, and the body contains no "Deploy Blockers" text at
all. -/
theorem claim_C6_create_from_empty :
    "**Release Version:** `1.0.2-1`\r\n".toList <+: serialize scenarioADocument ∧
    scenarioADocument.changeEntries =
      [⟨pr6, false, false⟩, ⟨pr7, false, false⟩, ⟨pr8, false, false⟩] ∧
    scenarioADocument.blockerEntries = [] ∧
    ¬ blockersHeader <:+: serialize scenarioADocument :=
  ⟨by decide, by decide, by decide, by decide⟩

/-- C7: round-trip idempotence — for every well-formed document the
Serializer can produce, parsing the serialized body yields a structurally
equal document, and serialization is deterministic (serializing the same
document twice yields byte-identical text; in this pure functional model the
second conjunct is definitional). -/
theorem claim_C7_roundtrip_idempotence (D : ChecklistDocument) (h : wellFormed D) :
    parse (some (serialize D)) = D ∧ serialize D = serialize D :=
  ⟨parse_serialize D h, rfl⟩

set_option maxRecDepth 16000 in
/-- Witness for C7: the round trip on a concrete document with three change
entries, two blocker entries and mixed checkbox states. -/
theorem claim_C7_witness :
    wellFormed scenarioBDocument ∧
      (parse (some (serialize scenarioBDocument)) = scenarioBDocument ∧
        serialize scenarioBDocument = serialize scenarioBDocument) :=
  ⟨by decide, claim_C7_roundtrip_idempotence scenarioBDocument (by decide)⟩

/-- C8: fail-open parsing — the parser is a total function (in this model it
returns a document for every input and cannot raise); a missing body and a
malformed body both yield the empty document; and from any parsed previous
body the pipeline still produces a complete checklist: every new change
reference has an entry in the reconciled document. -/
theorem claim_C8_fail_open_parsing :
    parse none = emptyDocument ∧
    parse (some "not a valid checklist body".toList) = emptyDocument ∧
    ∀ (body : Option JStr) (refs brefs : List JStr) (tag : Option JStr) (r : JStr),
      r ∈ refs → ∃ e ∈ (reconcile (parse body) refs brefs tag).changeEntries,
        e.reference = r := by
  refine ⟨rfl, by decide, ?_⟩
  intro body refs brefs tag r hr
  by_cases hprev : ∀ e ∈ (parse body).changeEntries, e.reference ≠ r
  · exact ⟨⟨r, false, false⟩, reconcileEntries_mem_new _ _ r hr hprev, rfl⟩
  · push_neg at hprev
    obtain ⟨e, he, hre⟩ := hprev
    exact ⟨e, reconcileEntries_mem_of_mem _ _ e he (by rw [hre]; exact hr), hre⟩

/-- Witness for C8: reconciling on top of a malformed previous body still
yields an entry for the new reference pr6. -/
theorem claim_C8_witness :
    pr6 ∈ [pr6] ∧
    ∃ e ∈ (reconcile (parse (some "garbage".toList)) [pr6] [] none).changeEntries,
      e.reference = pr6 :=
  ⟨by decide,
    claim_C8_fail_open_parsing.2.2 (some "garbage".toList) [pr6] [] none pr6 (by decide)⟩

/-- C9: exact split — for every non-empty participants list, total and
currency, the default user's share plus `participants.length` times the
per-person share equals `Math.round(total * currencyUnit) * 100 /
currencyUnit`: the rounding remainder is absorbed by the default user and
the shares sum exactly to the converted total. -/
theorem claim_C9_exact_split (currencyList : JStr → Option Nat)
    (participants : List JStr) (total : ℚ) (currency : JStr)
    (hne : participants ≠ []) :
    calculateAmount currencyList participants total currency true +
      (participants.length : ℚ) *
        calculateAmount currencyList participants total currency false =
    (jsRound (total * getCurrencyUnit currencyList currency) : ℚ) * 100 /
      getCurrencyUnit currencyList currency := by
  have hcu0 : getCurrencyUnit currencyList currency ≠ 0 := by
    unfold getCurrencyUnit
    positivity
  simp only [calculateAmount, if_true, Bool.false_eq_true, if_false]
  set cu := getCurrencyUnit currencyList currency with hcu
  set I : ℤ := jsRound (total * cu) with hI
  set np : ℤ := (participants.length : ℤ) + 1 with hnp
  set app : ℤ := jsRound ((I : ℚ) / (np : ℚ)) with happ
  by_cases hdiff : I = app * np
  · rw [if_neg (by omega)]
    rw [hdiff]
    push_cast [hnp]
    field_simp
    ring
  · rw [if_pos hdiff]
    push_cast [hnp]
    field_simp
    ring

/-- Witness for C9: one participant, total 5, unknown currency (two decimal
places by default). -/
theorem claim_C9_witness :
    (["a".toList] : List JStr) ≠ [] ∧
    calculateAmount (fun _ => none) ["a".toList] 5 "USD".toList true +
      ((["a".toList] : List JStr).length : ℚ) *
        calculateAmount (fun _ => none) ["a".toList] 5 "USD".toList false =
    (jsRound (5 * getCurrencyUnit (fun _ => none) "USD".toList) : ℚ) * 100 /
      getCurrencyUnit (fun _ => none) "USD".toList :=
  ⟨by decide,
    claim_C9_exact_split (fun _ => none) ["a".toList] 5 "USD".toList (by decide)⟩

/-- C10: IOU report invariant — a currency mismatch returns the report
unchanged; otherwise the returned total is non-negative, the
outstanding-IOU flag holds exactly when the returned total is non-zero, and
owner and manager are swapped whenever the update would make the total
negative. -/
theorem claim_C10_iou_report_invariant (iouReport : IOUReport) (actorEmail : JStr)
    (amount : ℤ) (currency : JStr) (type : IOUActionType) :
    (currency ≠ iouReport.currency →
      updateIOUOwnerAndTotal iouReport actorEmail amount currency type = iouReport) ∧
    (currency = iouReport.currency →
      0 ≤ (updateIOUOwnerAndTotal iouReport actorEmail amount currency type).total ∧
      ((updateIOUOwnerAndTotal iouReport actorEmail amount currency type).hasOutstandingIOU
          = true ↔
        (updateIOUOwnerAndTotal iouReport actorEmail amount currency type).total ≠ 0) ∧
      (iouReport.total + iouDelta iouReport actorEmail amount type < 0 →
        (updateIOUOwnerAndTotal iouReport actorEmail amount currency type).ownerEmail =
          iouReport.managerEmail ∧
        (updateIOUOwnerAndTotal iouReport actorEmail amount currency type).managerEmail =
          iouReport.ownerEmail)) := by
  constructor
  · intro h
    simp [updateIOUOwnerAndTotal, h]
  · intro h
    subst h
    unfold updateIOUOwnerAndTotal
    rw [if_neg (by simp)]
    by_cases ht : iouReport.total + iouDelta iouReport actorEmail amount type < 0
    · simp only [if_pos ht]
      refine ⟨by omega, by simp, ?_⟩
      intro hlt
      exact ⟨trivial, trivial⟩
    · simp only [if_neg ht]
      exact ⟨by omega, by simp, fun hc => absurd hc ht⟩

/-- Witness for C10: updating the sample report in its own currency keeps
the invariants. -/
theorem claim_C10_witness :
    0 ≤ (updateIOUOwnerAndTotal sampleIOUReport "actor@example.com".toList 700
        "USD".toList IOUActionType.cancel).total ∧
    ((updateIOUOwnerAndTotal sampleIOUReport "actor@example.com".toList 700
        "USD".toList IOUActionType.cancel).hasOutstandingIOU = true ↔
      (updateIOUOwnerAndTotal sampleIOUReport "actor@example.com".toList 700
        "USD".toList IOUActionType.cancel).total ≠ 0) ∧
    (sampleIOUReport.total +
        iouDelta sampleIOUReport "actor@example.com".toList 700 IOUActionType.cancel < 0 →
      (updateIOUOwnerAndTotal sampleIOUReport "actor@example.com".toList 700
        "USD".toList IOUActionType.cancel).ownerEmail = sampleIOUReport.managerEmail ∧
      (updateIOUOwnerAndTotal sampleIOUReport "actor@example.com".toList 700
        "USD".toList IOUActionType.cancel).managerEmail = sampleIOUReport.ownerEmail) :=
  (claim_C10_iou_report_invariant sampleIOUReport "actor@example.com".toList 700
    "USD".toList IOUActionType.cancel).2 rfl
